import Mathlib

/-!
Verification of the terminal cell-grid core of the `bb` repository
(`src/ui/terminal/cells.rs`) against its natural-language specification.

The data model (`Cell`, `Color`, `Attr`, `CellBuffer`) and the grid-mutation
operations (`change_colors`, `clear_area`, `write_string_to_grid`, `resize`,
construction from a string) are embedded shallowly: machine integers become
`Nat` (the source only adds and compares `usize` values, never near overflow),
and every Rust operation that can panic through unchecked indexing
(`grid[(x, y)]`, i.e. `Index`/`IndexMut` on `CellBuffer`, whose implementation
calls `.expect("index out of bounds")`) is modelled as an `Option`-returning
function where `none` means the panic.

The geometry helpers (`Pos`, `Area`, `get_x`, `get_y`, and the macros
`upper_left!`, `bottom_right!`, `is_valid_area!` from `position.rs`) and the
external display-width function `wcwidth` are not part of the provided source
tree; they are modelled from the specification where indicated.
-/

namespace Bb

/-- The color of a `Cell` (enum `Color` in the source). -/
inductive Color where
  | Black
  | Red
  | Green
  | Yellow
  | Blue
  | Magenta
  | Cyan
  | White
  | Byte (b : Nat)
  | Default
deriving DecidableEq, Repr

/-- `Color::as_byte` from the source. `Byte` values are `u8` in Rust; the
source returns the stored byte unchanged, so no wrap-around is involved. -/
def Color.as_byte : Color → Nat
  | .Black => 0x00
  | .Red => 0x01
  | .Green => 0x02
  | .Yellow => 0x03
  | .Blue => 0x04
  | .Magenta => 0x05
  | .Cyan => 0x06
  | .White => 0x07
  | .Byte b => b
  | .Default => 0x00

/-- The attributes of a `Cell` (enum `Attr` in the source). -/
inductive Attr where
  | Default
  | Bold
  | Underline
  | BoldUnderline
  | Reverse
  | BoldReverse
  | UnderlineReverse
  | BoldReverseUnderline
deriving DecidableEq, Repr

/-- A single point on a terminal display (struct `Cell` in the source). -/
structure Cell where
  ch : Char
  empty : Bool
  fg : Color
  bg : Color
  attrs : Attr
deriving DecidableEq, Repr

/-- `Cell::new` from the source: `empty` starts out `false`. -/
def Cell.new (ch : Char) (fg bg : Color) (attrs : Attr) : Cell :=
  { ch := ch, empty := false, fg := fg, bg := bg, attrs := attrs }

/-- `impl Default for Cell`: a blank space with default colors/attributes. -/
def Cell.mkDefault : Cell :=
  Cell.new ' ' Color.Default Color.Default Attr.Default

/-- `Cell::set_ch` from the source (functional form of the in-place setter). -/
def Cell.set_ch (self : Cell) (newch : Char) : Cell := { self with ch := newch }

/-- `Cell::set_fg` from the source. -/
def Cell.set_fg (self : Cell) (newfg : Color) : Cell := { self with fg := newfg }

/-- `Cell::set_bg` from the source. -/
def Cell.set_bg (self : Cell) (newbg : Color) : Cell := { self with bg := newbg }

/-- `Cell::set_attrs` from the source. -/
def Cell.set_attrs (self : Cell) (newattrs : Attr) : Cell := { self with attrs := newattrs }

/-- Modelled from the spec: a `Position` is an `(x, y)` pair of non-negative
grid coordinates (`Pos` in `position.rs`, which is not under `src/`). -/
abbrev Pos := Nat × Nat

/-- Modelled from the spec: a size query result `(columns, rows)`. -/
abbrev Size := Nat × Nat

/-- Modelled from the spec: an `Area` is an axis-aligned rectangle given by an
upper-left and a bottom-right `Pos`, both inclusive (`position.rs`). -/
abbrev Area := Pos × Pos

/-- Modelled from the spec: `get_x` extracts the column of a `Pos`. -/
def get_x (p : Pos) : Nat := p.1

/-- Modelled from the spec: `get_y` extracts the row of a `Pos`. -/
def get_y (p : Pos) : Nat := p.2

/-- Modelled from the spec: the `upper_left!` corner-extraction macro. -/
def upper_left (a : Area) : Pos := a.1

/-- Modelled from the spec: the `bottom_right!` corner-extraction macro. -/
def bottom_right (a : Area) : Pos := a.2

/-- Modelled from the spec: the `is_valid_area!` macro. An area is valid iff
its upper-left is component-wise at most its bottom-right. -/
def is_valid_area (a : Area) : Bool :=
  if get_y (upper_left a) > get_y (bottom_right a) ∨
      get_x (upper_left a) > get_x (bottom_right a) then false else true

/-- Struct `CellBuffer` from the source: a flat row-major vector of cells. -/
structure CellBuffer where
  cols : Nat
  rows : Nat
  buf : List Cell
deriving DecidableEq, Repr

/-- The invariant documented for `CellBuffer`: the flat vector has exactly
`cols * rows` cells. -/
def CellBuffer.wf (self : CellBuffer) : Prop := self.buf.length = self.cols * self.rows

instance (self : CellBuffer) : Decidable self.wf := by
  unfold CellBuffer.wf; infer_instance

/-- `CellBuffer::new` from the source: `cols * rows` copies of the blank. -/
def CellBuffer.new (cols rows : Nat) (cell : Cell) : CellBuffer :=
  { cols := cols, rows := rows, buf := List.replicate (cols * rows) cell }

/-- `HasSize::size` for `CellBuffer`: returns `(cols, rows)`. -/
def CellBuffer.size (self : CellBuffer) : Size := (self.cols, self.rows)

/-- `CellAccessor::pos_to_index` from the source. -/
def CellBuffer.pos_to_index (self : CellBuffer) (x y : Nat) : Option Nat :=
  if x < self.cols ∧ y < self.rows then some (self.cols * y + x) else none

/-- `CellAccessor::get` from the source: checked lookup. -/
def CellBuffer.get (self : CellBuffer) (x y : Nat) : Option Cell :=
  match self.pos_to_index x y with
  | some i => self.buf[i]?
  | none => none

/-- One in-place mutation through `IndexMut` (`grid[(x, y)].set_..(..)` in the
source). The source's `index_mut` calls `get_mut(x, y).expect(..)`, so an
out-of-range coordinate panics: `none` models that panic. -/
def CellBuffer.modifyCell (self : CellBuffer) (x y : Nat) (f : Cell → Cell) : Option CellBuffer :=
  match self.pos_to_index x y with
  | some i =>
    match self.buf[i]? with
    | some cell => some { self with buf := self.buf.set i (f cell) }
    | none => none
  | none => none

/-- `CellBuffer::resize` from the source: if the flat length already equals
`newcols * newrows` it returns immediately; otherwise it rebuilds row-major,
reading each new coordinate from the old buffer via the checked `get` and
falling back to `blank` (`unwrap_or(&blank)`). -/
def CellBuffer.resize (self : CellBuffer) (newcols newrows : Nat) (blank : Cell) : CellBuffer :=
  if self.buf.length = newcols * newrows then self
  else
    { cols := newcols, rows := newrows,
      buf := ((List.range newrows).map (fun y =>
        (List.range newcols).map (fun x => (self.get x y).getD blank))).flatten }

/-- The inclusive Rust range `a..=b` over `usize`, as a list. -/
def rangeIncl (a b : Nat) : List Nat := List.range' a (b + 1 - a)

/-- Body of the `change_colors` double loop for one coordinate: the source
conditionally runs `grid[(x, y)].set_fg(..)` and then `grid[(x, y)].set_bg(..)`,
each through the panicking index. -/
def change_colors_cell (fg_color bg_color : Option Color) (g : CellBuffer) (x y : Nat) :
    Option CellBuffer := do
  let g ← match fg_color with
    | some fg => g.modifyCell x y (fun cell => cell.set_fg fg)
    | none => some g
  match bg_color with
  | some bg => g.modifyCell x y (fun cell => cell.set_bg bg)
  | none => some g

/-- `change_colors` from the source: early-returns (leaving the grid intact)
when the upper-left breaks the listed comparisons or the area is invalid,
then recolors the full inclusive rectangle with unchecked indexing. -/
def change_colors (grid : CellBuffer) (area : Area) (fg_color bg_color : Option Color) :
    Option CellBuffer :=
  let bounds := grid.size
  let ul := upper_left area
  let br := bottom_right area
  if get_y ul > get_y br ∨ get_x ul > get_x br ∨
      get_y ul ≥ get_y bounds ∨ get_x ul ≥ get_x bounds then
    some grid
  else if is_valid_area area = false then
    some grid
  else
    (rangeIncl (get_y ul) (get_y br)).foldlM (fun g y =>
      (rangeIncl (get_x ul) (get_x br)).foldlM (fun g x =>
        change_colors_cell fg_color bg_color g x y) g) grid

/-- `clear_area` from the source: a no-op for an invalid area, otherwise each
cell of the inclusive rectangle is reset via five unchecked-index mutations
(space char, default colors/attrs, `empty = false`), which taken together
replace the cell by the default cell. -/
def clear_area (grid : CellBuffer) (area : Area) : Option CellBuffer :=
  if is_valid_area area = false then some grid
  else
    (rangeIncl (get_y (upper_left area)) (get_y (bottom_right area))).foldlM (fun g y =>
      (rangeIncl (get_x (upper_left area)) (get_x (bottom_right area))).foldlM (fun g x =>
        g.modifyCell x y (fun _ => Cell.mkDefault)) g) grid

/-- Outcome of one expansion of the `inspect_bounds!` macro: continue the
loop with an updated cursor, break out of the character loop, or return from
`write_string_to_grid` with the given position. -/
inductive Step where
  | cont (x y : Nat)
  | brk (x y : Nat)
  | ret (p : Pos)
deriving DecidableEq, Repr

/-- The `inspect_bounds!` macro from the source, as a function returning a
tagged outcome. `bounds` is re-read from the grid at each expansion; the
wrap triggers when the column sits exactly one past the area's right edge or
strictly past the buffer's column count. -/
def inspect_bounds (grid : CellBuffer) (area : Area) (x y : Nat) (line_break : Bool) : Step :=
  let bounds := grid.size
  let ul := upper_left area
  let br := bottom_right area
  if x = get_x br + 1 ∨ x > get_x bounds then
    let x := get_x ul
    let y := y + 1
    if y > get_y br ∨ y > get_y bounds then Step.ret (x, y - 1)
    else if line_break = false then Step.brk x y
    else Step.cont x y
  else Step.cont x y

/-- Outcome of processing one character of the `write_string_to_grid` loop:
continue with an updated grid and cursor, stop (break or early return) with
the function's result, or panic on an out-of-range unchecked index. -/
inductive CharOut where
  | cont (grid : CellBuffer) (x y : Nat)
  | stop (grid : CellBuffer) (p : Pos)
  | panic
deriving DecidableEq, Repr

/-- The grid carried by a non-panicking outcome. -/
def CharOut.gridOf : CharOut → Option CellBuffer
  | .cont g _ _ => some g
  | .stop g _ => some g
  | .panic => none

/-- The cursor of a continuing outcome. -/
def CharOut.contPos : CharOut → Option Pos
  | .cont _ x y => some (x, y)
  | _ => none

/-- Tail of the loop body from the source: `match wcwidth(u32::from(c))`
(zero/unknown marks the current cell empty; width 2 advances once more with
`inspect_bounds!` and marks the continuation cell empty) followed by the
final `x += 1; inspect_bounds!`. -/
def widthStep (w : Nat → Option Nat) (area : Area) (line_break : Bool)
    (grid : CellBuffer) (x y : Nat) (c : Char) : CharOut :=
  let afterWidth : Option (CellBuffer × Nat × Nat) :=
    match w c.toNat with
    | some 0 | none =>
      match grid.modifyCell x y (fun cell => { cell with empty := true }) with
      | none => none
      | some grid => some (grid, x, y)
    | some 2 => some (grid, x, y)
    | some _ => some (grid, x, y)
  match w c.toNat with
  | some 2 =>
    match inspect_bounds grid area (x + 1) y line_break with
    | .ret p => .stop grid p
    | .brk x' y' => .stop grid (x', y')
    | .cont x' y' =>
      match grid.modifyCell x' y' (fun cell => { cell with empty := true }) with
      | none => .panic
      | some grid =>
        match inspect_bounds grid area (x' + 1) y' line_break with
        | .ret p => .stop grid p
        | .brk x'' y'' => .stop grid (x'', y'')
        | .cont x'' y'' => .cont grid x'' y''
  | _ =>
    match afterWidth with
    | none => .panic
    | some (grid, x, y) =>
      match inspect_bounds grid area (x + 1) y line_break with
      | .ret p => .stop grid p
      | .brk x' y' => .stop grid (x', y')
      | .cont x' y' => .cont grid x' y'

/-- One iteration of the `for c in s.chars()` loop of `write_string_to_grid`:
skip `\r`; stamp attrs/fg/bg on the cursor cell; a tab writes a space,
advances with `inspect_bounds!`, and writes a second space; any other
character is written literally; then the width match and the final advance
(`widthStep`). -/
def write_char (w : Nat → Option Nat) (fg_color bg_color : Color) (attrs : Attr)
    (area : Area) (line_break : Bool) (grid : CellBuffer) (x y : Nat) (c : Char) : CharOut :=
  if c = '\r' then .cont grid x y
  else
    match grid.modifyCell x y
        (fun cell => ((cell.set_attrs attrs).set_fg fg_color).set_bg bg_color) with
    | none => .panic
    | some grid =>
      if c = '\t' then
        match grid.modifyCell x y (fun cell => cell.set_ch ' ') with
        | none => .panic
        | some grid =>
          match inspect_bounds grid area (x + 1) y line_break with
          | .ret p => .stop grid p
          | .brk x' y' => .stop grid (x', y')
          | .cont x' y' =>
            match grid.modifyCell x' y' (fun cell => cell.set_ch ' ') with
            | none => .panic
            | some grid => widthStep w area line_break grid x' y' c
      else
        match grid.modifyCell x y (fun cell => cell.set_ch c) with
        | none => .panic
        | some grid => widthStep w area line_break grid x y c

/-- The character loop of `write_string_to_grid`. `none` models a panic. -/
def write_loop (w : Nat → Option Nat) (fg_color bg_color : Color) (attrs : Attr)
    (area : Area) (line_break : Bool) :
    List Char → CellBuffer → Nat → Nat → Option (CellBuffer × Pos)
  | [], grid, x, y => some (grid, (x, y))
  | c :: cs, grid, x, y =>
    match write_char w fg_color bg_color attrs area line_break grid x y c with
    | .panic => none
    | .stop g p => some (g, p)
    | .cont g x' y' => write_loop w fg_color bg_color attrs area line_break cs g x' y'

/-- `write_string_to_grid` from the source, parameterized by the external
display-width function `w` (the repo's `wcwidth`, an external collaborator
per the spec). Returns the final grid and cursor, or `none` on a panic. -/
def write_string_to_grid (w : Nat → Option Nat) (s : List Char) (grid : CellBuffer)
    (fg_color bg_color : Color) (attrs : Attr) (area : Area) (line_break : Bool) :
    Option (CellBuffer × Pos) :=
  let bounds := grid.size
  let ul := upper_left area
  let br := bottom_right area
  let x := get_x ul
  let y := get_y ul
  if y = get_y bounds ∨ x = get_x bounds then some (grid, (x, y))
  else if y > get_y br ∨ x > get_x br ∨ y > get_y bounds ∨ x > get_x bounds then
    some (grid, (x, y))
  else
    write_loop w fg_color bg_color attrs area line_break s grid x y

/-- `char::is_whitespace` from the Rust standard library: the Unicode
White_Space property, whose full set of code points is U+0009-U+000D, space,
U+0085 (next line), U+00A0 (no-break space), U+1680 (ogham space mark),
U+2000-U+200A (the typographic spaces), U+2028 (line separator), U+2029
(paragraph separator), U+202F (narrow no-break space), U+205F (medium
mathematical space) and U+3000 (ideographic space). -/
def isRustWhitespace (c : Char) : Bool :=
  let n := c.toNat
  (0x09 ≤ n && n ≤ 0x0D) || n = 0x20 || n = 0x85 || n = 0xA0 || n = 0x1680 ||
    (0x2000 ≤ n && n ≤ 0x200A) || n = 0x2028 || n = 0x2029 || n = 0x202F ||
    n = 0x205F || n = 0x3000

/-- `str::trim_end` on a line, dropping trailing Unicode-whitespace
characters. -/
def trim_end (l : List Char) : List Char :=
  (l.reverse.dropWhile isRustWhitespace).reverse

/-- Drop a single trailing carriage return, as `str::lines` does for a line
terminated by the sequence CR LF. -/
def stripCR (l : List Char) : List Char :=
  if l.getLast? = some '\r' then l.dropLast else l

/-- Worker for `rustLines`: `acc` holds the current line reversed. A final
line is emitted only when non-empty (so a trailing newline produces no extra
empty line, and an empty string produces no lines), matching `str::lines`. -/
def rustLinesAux : List Char → List Char → List (List Char)
  | acc, [] => if acc.isEmpty then [] else [acc.reverse]
  | acc, c :: rest =>
    if c = '\n' then stripCR acc.reverse :: rustLinesAux [] rest
    else rustLinesAux (c :: acc) rest

/-- `str::lines` from the Rust standard library, as used by the `From<&str>`
constructor: split at LF, treating a preceding CR as part of the terminator,
with the final terminator optional. -/
def rustLines (s : List Char) : List (List Char) := rustLinesAux [] s

/-- `str::len` of the source string: its UTF-8 byte length. -/
def utf8Len (s : List Char) : Nat := (s.map Char.utf8Size).sum

/-- Inner loop of `From<&str> for CellBuffer`: write the characters of one
line at consecutive columns of row 0 starting at column `i`, through the
panicking index (`buf[(x + idx, 0)].set_ch(c)`). -/
def writeLineChars : List Char → Nat → CellBuffer → Option CellBuffer
  | [], _, buf => some buf
  | c :: cs, i, buf =>
    match buf.modifyCell i 0 (fun cell => cell.set_ch c) with
    | none => none
    | some buf => writeLineChars cs (i + 1) buf

/-- Outer loop of `From<&str> for CellBuffer`: after each line a line-feed
terminator cell is written, and the column cursor advances past it. -/
def from_str_loop : List (List Char) → Nat → CellBuffer → Option CellBuffer
  | [], _, buf => some buf
  | l :: ls, x, buf =>
    match writeLineChars l x buf with
    | none => none
    | some buf =>
      match buf.modifyCell (x + l.length) 0 (fun cell => cell.set_ch '\n') with
      | none => none
      | some buf => from_str_loop ls (x + l.length + 1) buf

/-- `impl From<&str> for CellBuffer` from the source: trim each line's
trailing whitespace, allocate a `(s.len() + lines.len()) × 1` buffer of
default cells, and pack the lines into row 0 separated by `\n` cells. -/
def CellBuffer.from_str (s : List Char) : Option CellBuffer :=
  let lines := (rustLines s).map trim_end
  let len := utf8Len s + lines.length
  from_str_loop lines 0 (CellBuffer.new len 1 Cell.mkDefault)

/-- A display-width function assigning width 1 to every code point; used to
instantiate claims that stipulate width-1 characters. -/
def width1 : Nat → Option Nat := fun _ => some 1

/-- A display-width function declaring width 2 for the tab code point (9) and
width 1 elsewhere; one of the possible outputs the tab claim quantifies over. -/
def widthTab2 : Nat → Option Nat := fun n => if n = 9 then some 2 else some 1

/-- A display-width function declaring the tab code point of unknown width
(as the repo's `wcwidth` does for control characters) and width 1 elsewhere. -/
def widthTabNone : Nat → Option Nat := fun n => if n = 9 then none else some 1

/-- A 2-column, 3-row buffer holding six distinct characters, row-major. -/
def b23 : CellBuffer :=
  { cols := 2, rows := 3,
    buf := ['a', 'b', 'c', 'd', 'e', 'f'].map (fun c => { Cell.mkDefault with ch := c }) }

/-- A 5 by 5 buffer of default cells. -/
def cb55 : CellBuffer := CellBuffer.new 5 5 Cell.mkDefault

/-- A 10 by 1 buffer of default cells. -/
def cb101 : CellBuffer := CellBuffer.new 10 1 Cell.mkDefault

/-- An in-range coordinate maps to the row-major flat index. -/
theorem pos_to_index_in_range (g : CellBuffer) (x y : Nat) (hx : x < g.cols) (hy : y < g.rows) :
    g.pos_to_index x y = some (g.cols * y + x) := by
  simp [CellBuffer.pos_to_index, hx, hy]

/-- The row-major flat index of an in-range coordinate is inside the vector
of a well-formed buffer. -/
theorem flat_index_lt (g : CellBuffer) (x y : Nat) (hwf : g.wf)
    (hx : x < g.cols) (hy : y < g.rows) : g.cols * y + x < g.buf.length := by
  rw [CellBuffer.wf] at hwf
  calc g.cols * y + x < g.cols * y + g.cols := by omega
    _ = g.cols * (y + 1) := by ring
    _ ≤ g.cols * g.rows := Nat.mul_le_mul_left _ (by omega)
    _ = g.buf.length := hwf.symm

/-- On a well-formed buffer, mutating an in-range cell succeeds and replaces
exactly the row-major flat position. -/
theorem modifyCell_success (g : CellBuffer) (x y : Nat) (f : Cell → Cell) (hwf : g.wf)
    (hx : x < g.cols) (hy : y < g.rows) :
    ∃ c, g.buf[g.cols * y + x]? = some c ∧
      g.modifyCell x y f = some { g with buf := g.buf.set (g.cols * y + x) (f c) } := by
  have hlt := flat_index_lt g x y hwf hx hy
  cases hc : g.buf[g.cols * y + x]? with
  | none =>
    have := List.getElem?_eq_none_iff.mp hc
    omega
  | some c =>
    refine ⟨c, rfl, ?_⟩
    simp [CellBuffer.modifyCell, pos_to_index_in_range g x y hx hy, hc]

/-- Setting a buffer position preserves well-formedness. -/
theorem wf_set (g : CellBuffer) (i : Nat) (c : Cell) (hwf : g.wf) :
    CellBuffer.wf { g with buf := g.buf.set i c } := by
  rw [CellBuffer.wf] at hwf ⊢
  simpa using hwf

/-- A successful `modifyCell` preserves the dimensions and well-formedness. -/
theorem modifyCell_preserve (g g' : CellBuffer) (x y : Nat) (f : Cell → Cell)
    (h : g.modifyCell x y f = some g') :
    g'.cols = g.cols ∧ g'.rows = g.rows ∧ (g.wf → g'.wf) := by
  unfold CellBuffer.modifyCell at h
  rcases hp : g.pos_to_index x y with _ | i <;> simp only [hp] at h
  · exact Option.noConfusion h
  · rcases hb : g.buf[i]? with _ | c <;> simp only [hb] at h
    · exact Option.noConfusion h
    · cases h
      refine ⟨rfl, rfl, fun hwf => ?_⟩
      rw [CellBuffer.wf] at hwf ⊢
      simpa using hwf

/-- C1, counterexample. The claim says `clear_area` and `change_colors` leave
the buffer unchanged and never panic on any area whose rectangle is not
entirely within the buffer bounds. On a 1 by 1 buffer, `clear_area` with the
valid but out-of-bounds area ((2,2),(2,2)) reaches the unchecked index and
panics (modelled `none`), and `change_colors` with the area ((0,0),(1,0)) -
upper-left in bounds, bottom-right outside - panics likewise. -/
theorem claim1_counterexample :
    clear_area (CellBuffer.new 1 1 Cell.mkDefault) ((2, 2), (2, 2)) = none ∧
    change_colors (CellBuffer.new 1 1 Cell.mkDefault) ((0, 0), (1, 0))
      (some Color.Red) none = none := by
  decide

/-- C2, counterexample. The claim says `write_string_to_grid` never panics
for any area. Writing "abc" into a 2-column, 1-row buffer with the area
((0,0),(5,0)) reaches column 2: the wrap test `x == bottom_right.x + 1 ||
x > cols` is false at `x = cols = 2`, so the unchecked index panics. -/
theorem claim2_counterexample :
    write_string_to_grid width1 "abc".toList (CellBuffer.new 2 1 Cell.mkDefault)
      Color.Default Color.Default Attr.Default ((0, 0), (5, 0)) false = none := by
  decide

/-- C3, counterexample. Resizing the 2 by 3 buffer `b23` to 3 by 2 keeps the
total cell count at 6, so `resize` returns immediately. The claim demands
that the post-resize cell at coordinate (2,0) - inside the new rectangle but
outside `min(cols,nc) = 2` columns - equal the blank; in fact flat position
`2*0 + 2 = 2` of the untouched buffer still holds the old cell 'c', and the
buffer still reports 2 columns rather than 3. -/
theorem claim3_counterexample :
    (b23.resize 3 2 Cell.mkDefault).buf[3 * 0 + 2]? = some { Cell.mkDefault with ch := 'c' } ∧
    ({ Cell.mkDefault with ch := 'c' } : Cell) ≠ Cell.mkDefault ∧
    (b23.resize 3 2 Cell.mkDefault).cols = 2 := by
  decide

/-- C4, counterexample. Writing "abcdef" (all width 1) into the 3 by 2 area
((0,0),(2,1)) of a 5 by 5 buffer with line breaks allowed returns cursor
(0,1), not the claimed (3,1): after 'f' the column advance hits
`bottom_right.x + 1 = 3`, the wrap resets the column to 0 and bumps the row
to 2, which exceeds the area's bottom edge, so the function returns the
wrapped column together with the previous row. -/
theorem claim4_counterexample :
    (write_string_to_grid width1 "abcdef".toList cb55 Color.Red Color.Default
        Attr.Default ((0, 0), (2, 1)) true).map Prod.snd = some (0, 1) ∧
    (write_string_to_grid width1 "abcdef".toList cb55 Color.Red Color.Default
        Attr.Default ((0, 0), (2, 1)) true).map Prod.snd ≠ some (3, 1) := by
  decide

/-- C5, counterexample. The claim says a tab consumes exactly two grid
columns for every possible width-function result for the tab code point,
including width 2. With a width function declaring tab to have width 2,
writing a single tab from (0,0) into a 10 by 1 buffer leaves the cursor at
(3,0): the width-2 arm advances and empty-marks a third column. -/
theorem claim5_counterexample :
    (write_string_to_grid widthTab2 "\t".toList cb101 Color.Red Color.Default
        Attr.Default ((0, 0), (9, 0)) false).map Prod.snd = some (3, 0) ∧
    (write_string_to_grid widthTab2 "\t".toList cb101 Color.Red Color.Default
        Attr.Default ((0, 0), (9, 0)) false).map Prod.snd ≠ some (2, 0) := by
  decide

/-- C5 as amended: at an in-bounds cursor with at least two more columns of
area and buffer ahead, a tab consumes exactly two grid columns and leaves a
space glyph in both cells whenever the external width function reports the
tab code point (9) as width 0, width 1, or unknown - but not width 2 (see
the counterexample, where a third column is consumed). -/
theorem claim5_amended (w : Nat → Option Nat) (fg bg : Color) (attrs : Attr)
    (area : Area) (lb : Bool) (grid : CellBuffer) (x y : Nat)
    (hwf : grid.wf) (hy : y < grid.rows)
    (hroom : x + 1 < get_x (bottom_right area)) (hcols : x + 2 ≤ grid.cols)
    (hw : w 9 = some 0 ∨ w 9 = some 1 ∨ w 9 = none) :
    (write_char w fg bg attrs area lb grid x y '\t').contPos = some (x + 2, y) ∧
    ((write_char w fg bg attrs area lb grid x y '\t').gridOf.bind
      (fun g => g.get x y)).map Cell.ch = some ' ' ∧
    ((write_char w fg bg attrs area lb grid x y '\t').gridOf.bind
      (fun g => g.get (x + 1) y)).map Cell.ch = some ' ' := by
  have hx : x < grid.cols := by omega
  have hx1 : x + 1 < grid.cols := by omega
  have hroom' : x + 1 < area.2.1 := hroom
  have hA1 : ¬(x = area.2.1) := by omega
  have hA2 : ¬(x + 1 = area.2.1) := by omega
  have hB1 : ¬(grid.cols < x + 1) := by omega
  have hB2 : ¬(grid.cols < x + 2) := by omega
  have hl0 : grid.cols * y + x < grid.buf.length := flat_index_lt grid x y hwf hx hy
  have hl1 : grid.cols * y + (x + 1) < grid.buf.length := flat_index_lt grid (x + 1) y hwf hx1 hy
  have hne : grid.cols * y + (x + 1) ≠ grid.cols * y + x := by omega
  rcases hw with h | h | h <;>
    simp [write_char, widthStep, inspect_bounds, CellBuffer.modifyCell,
      CellBuffer.pos_to_index, CellBuffer.get, CellBuffer.size, CharOut.contPos,
      CharOut.gridOf, get_x, get_y, upper_left, bottom_right, Cell.set_ch,
      Cell.set_fg, Cell.set_bg, Cell.set_attrs, h, hx, hx1, hy, hA1, hA2, hB1, hB2,
      hl0, hl1, hne, List.getElem?_set, List.length_set]

/-- C5, witness: on the 10 by 1 buffer at the origin of area ((0,0),(9,0)),
with the width function reporting the tab code point as unknown width, a tab
advances the cursor to column 2 and both cells hold a space. -/
theorem claim5_witness :
    (write_char widthTabNone Color.Red Color.Default Attr.Default ((0, 0), (9, 0))
      false cb101 0 0 '\t').contPos = some (2, 0) ∧
    ((write_char widthTabNone Color.Red Color.Default Attr.Default ((0, 0), (9, 0))
      false cb101 0 0 '\t').gridOf.bind (fun g => g.get 0 0)).map Cell.ch = some ' ' ∧
    ((write_char widthTabNone Color.Red Color.Default Attr.Default ((0, 0), (9, 0))
      false cb101 0 0 '\t').gridOf.bind (fun g => g.get 1 0)).map Cell.ch = some ' ' :=
  claim5_amended widthTabNone Color.Red Color.Default Attr.Default ((0, 0), (9, 0))
    false cb101 0 0 (by decide) (by decide) (by decide) (by decide)
    (Or.inr (Or.inr (by decide)))

/-- C6: the per-character width policy of `write_string_to_grid`, for a
character written at an in-bounds cursor with room ahead (not CR, which is
skipped, and not tab, whose special case is the tab claims'): width 0 or
unknown marks the just-written cell `empty` without consuming an extra
column; width 2 consumes one extra column and marks that additional cell
`empty`; width 1 performs only the normal single-column advance and leaves
the neighbouring cell untouched. -/
theorem claim6_theorem (w : Nat → Option Nat) (fg bg : Color) (attrs : Attr)
    (area : Area) (lb : Bool) (grid : CellBuffer) (x y : Nat) (c : Char)
    (hwf : grid.wf) (hy : y < grid.rows) (hcr : c ≠ '\r') (htab : c ≠ '\t')
    (hroom : x < get_x (bottom_right area)) (hcols : x + 1 ≤ grid.cols) :
    ((w c.toNat = some 0 ∨ w c.toNat = none) →
      (write_char w fg bg attrs area lb grid x y c).contPos = some (x + 1, y) ∧
      ((write_char w fg bg attrs area lb grid x y c).gridOf.bind
        (fun g => g.get x y)).map Cell.empty = some true ∧
      ((write_char w fg bg attrs area lb grid x y c).gridOf.bind
        (fun g => g.get x y)).map Cell.ch = some c) ∧
    (w c.toNat = some 2 → x + 1 < get_x (bottom_right area) → x + 2 ≤ grid.cols →
      (write_char w fg bg attrs area lb grid x y c).contPos = some (x + 2, y) ∧
      ((write_char w fg bg attrs area lb grid x y c).gridOf.bind
        (fun g => g.get (x + 1) y)).map Cell.empty = some true) ∧
    (w c.toNat = some 1 →
      (write_char w fg bg attrs area lb grid x y c).contPos = some (x + 1, y) ∧
      (write_char w fg bg attrs area lb grid x y c).gridOf.bind
        (fun g => g.get (x + 1) y) = grid.get (x + 1) y) := by
  have hx : x < grid.cols := by omega
  have hroom' : x < area.2.1 := hroom
  have hA1 : ¬(x = area.2.1) := by omega
  have hB1 : ¬(grid.cols < x + 1) := by omega
  have hl0 : grid.cols * y + x < grid.buf.length := flat_index_lt grid x y hwf hx hy
  refine ⟨?_, ?_, ?_⟩
  · rintro (h | h) <;>
      simp [write_char, widthStep, inspect_bounds, CellBuffer.modifyCell,
        CellBuffer.pos_to_index, CellBuffer.get, CellBuffer.size, CharOut.contPos,
        CharOut.gridOf, get_x, get_y, upper_left, bottom_right, Cell.set_ch,
        Cell.set_fg, Cell.set_bg, Cell.set_attrs, h, hcr, htab, hx, hy,
        hA1, hB1, hl0, List.getElem?_set, List.length_set]
  · intro h hroom2 hcols2
    have hx1 : x + 1 < grid.cols := by omega
    have hroom2' : x + 1 < area.2.1 := hroom2
    have hA2 : ¬(x + 1 = area.2.1) := by omega
    have hB2 : ¬(grid.cols < x + 2) := by omega
    have hl1 : grid.cols * y + (x + 1) < grid.buf.length := flat_index_lt grid (x + 1) y hwf hx1 hy
    have hne : grid.cols * y + (x + 1) ≠ grid.cols * y + x := by omega
    simp [write_char, widthStep, inspect_bounds, CellBuffer.modifyCell,
      CellBuffer.pos_to_index, CellBuffer.get, CellBuffer.size, CharOut.contPos,
      CharOut.gridOf, get_x, get_y, upper_left, bottom_right, Cell.set_ch,
      Cell.set_fg, Cell.set_bg, Cell.set_attrs, h, hcr, htab, hx, hx1, hy,
      hA1, hA2, hB1, hB2, hl0, hl1, hne, List.getElem?_set, List.length_set]
  · intro h
    have hne' : grid.cols * y + x ≠ grid.cols * y + (x + 1) := by omega
    by_cases hx1 : x + 1 < grid.cols
    · simp [write_char, widthStep, inspect_bounds, CellBuffer.modifyCell,
        CellBuffer.pos_to_index, CellBuffer.get, CellBuffer.size, CharOut.contPos,
        CharOut.gridOf, get_x, get_y, upper_left, bottom_right, Cell.set_ch,
        Cell.set_fg, Cell.set_bg, Cell.set_attrs, h, hcr, htab, hx, hx1, hy,
        hA1, hB1, hl0, hne', List.getElem?_set, List.length_set]
    · simp [write_char, widthStep, inspect_bounds, CellBuffer.modifyCell,
        CellBuffer.pos_to_index, CellBuffer.get, CellBuffer.size, CharOut.contPos,
        CharOut.gridOf, get_x, get_y, upper_left, bottom_right, Cell.set_ch,
        Cell.set_fg, Cell.set_bg, Cell.set_attrs, h, hcr, htab, hx, hx1, hy,
        hA1, hB1, hl0, hne', List.getElem?_set, List.length_set]

/-- C6, witness: writing 'a' (width 1 under the test width function) at the
origin of the 10 by 1 buffer advances the cursor by exactly one column and
leaves the neighbouring cell untouched. -/
theorem claim6_witness :
    (write_char widthTabNone Color.Red Color.Default Attr.Default ((0, 0), (9, 0))
      false cb101 0 0 'a').contPos = some (1, 0) ∧
    (write_char widthTabNone Color.Red Color.Default Attr.Default ((0, 0), (9, 0))
      false cb101 0 0 'a').gridOf.bind (fun g => g.get 1 0) = cb101.get 1 0 :=
  (claim6_theorem widthTabNone Color.Red Color.Default Attr.Default ((0, 0), (9, 0))
    false cb101 0 0 'a' (by decide) (by decide) (by decide) (by decide) (by decide)
    (by decide)).2.2 (by decide)

/-- C10: when the loop of `write_string_to_grid` processes a tab (at an
in-bounds cursor, with room so that neither advance wraps), only the first
of the two affected cells receives the call's foreground, background, and
attributes; the second cell's character becomes a space while its
foreground, background, and attributes keep their prior values - and this
holds for every output of the display-width function. -/
theorem claim10_theorem (w : Nat → Option Nat) (fg bg : Color) (attrs : Attr)
    (area : Area) (lb : Bool) (grid : CellBuffer) (x y : Nat)
    (hwf : grid.wf) (hy : y < grid.rows)
    (hroom : x + 2 < get_x (bottom_right area)) (hcols : x + 3 ≤ grid.cols)
    (c0 c1 : Cell) (h0 : grid.get x y = some c0) (h1 : grid.get (x + 1) y = some c1) :
    ((write_char w fg bg attrs area lb grid x y '\t').gridOf.bind
      (fun g => g.get x y)) =
        some { c0 with ch := ' ', fg := fg, bg := bg, attrs := attrs } ∧
    ((write_char w fg bg attrs area lb grid x y '\t').gridOf.bind
      (fun g => g.get (x + 1) y)).map Cell.ch = some ' ' ∧
    ((write_char w fg bg attrs area lb grid x y '\t').gridOf.bind
      (fun g => g.get (x + 1) y)).map Cell.fg = some c1.fg ∧
    ((write_char w fg bg attrs area lb grid x y '\t').gridOf.bind
      (fun g => g.get (x + 1) y)).map Cell.bg = some c1.bg ∧
    ((write_char w fg bg attrs area lb grid x y '\t').gridOf.bind
      (fun g => g.get (x + 1) y)).map Cell.attrs = some c1.attrs := by
  have hx : x < grid.cols := by omega
  have hx1 : x + 1 < grid.cols := by omega
  have hx2 : x + 2 < grid.cols := by omega
  have hroom' : x + 2 < area.2.1 := hroom
  have hA1 : ¬(x = area.2.1) := by omega
  have hA2 : ¬(x + 1 = area.2.1) := by omega
  have hA3 : ¬(x + 2 = area.2.1) := by omega
  have hB1 : ¬(grid.cols < x + 1) := by omega
  have hB2 : ¬(grid.cols < x + 2) := by omega
  have hB3 : ¬(grid.cols < x + 3) := by omega
  have hl0 : grid.cols * y + x < grid.buf.length := flat_index_lt grid x y hwf hx hy
  have hl1 : grid.cols * y + (x + 1) < grid.buf.length := flat_index_lt grid (x + 1) y hwf hx1 hy
  have hl2 : grid.cols * y + (x + 2) < grid.buf.length := flat_index_lt grid (x + 2) y hwf hx2 hy
  have hne10 : grid.cols * y + (x + 1) ≠ grid.cols * y + x := by omega
  have hne20 : grid.cols * y + (x + 2) ≠ grid.cols * y + x := by omega
  have hne21 : grid.cols * y + (x + 2) ≠ grid.cols * y + (x + 1) := by omega
  have hb0 : grid.buf[grid.cols * y + x]? = some c0 := by
    simpa [CellBuffer.get, pos_to_index_in_range grid x y hx hy] using h0
  have hb1 : grid.buf[grid.cols * y + (x + 1)]? = some c1 := by
    simpa [CellBuffer.get, pos_to_index_in_range grid (x + 1) y hx1 hy] using h1
  obtain ⟨hi0, hv0⟩ := List.getElem?_eq_some_iff.mp hb0
  obtain ⟨hi1, hv1⟩ := List.getElem?_eq_some_iff.mp hb1
  cases hw9 : w 9 with
  | none =>
    simp [write_char, widthStep, inspect_bounds, CellBuffer.modifyCell,
      CellBuffer.pos_to_index, CellBuffer.get, CellBuffer.size, CharOut.gridOf,
      get_x, get_y, upper_left, bottom_right, Cell.set_ch, Cell.set_fg,
      Cell.set_bg, Cell.set_attrs, hw9, hx, hx1, hx2, hy, hA1, hA2, hA3,
      hB1, hB2, hB3, hl0, hl1, hl2, hne10, hne20, hne21, hb0, hb1, hv0, hv1,
      List.getElem?_set, List.length_set]
  | some n =>
    rcases n with _ | _ | _ | m <;>
      simp [write_char, widthStep, inspect_bounds, CellBuffer.modifyCell,
        CellBuffer.pos_to_index, CellBuffer.get, CellBuffer.size, CharOut.gridOf,
        get_x, get_y, upper_left, bottom_right, Cell.set_ch, Cell.set_fg,
        Cell.set_bg, Cell.set_attrs, hw9, hx, hx1, hx2, hy, hA1, hA2, hA3,
        hB1, hB2, hB3, hl0, hl1, hl2, hne10, hne20, hne21, hb0, hb1, hv0, hv1,
        List.getElem?_set, List.length_set]

/-- C10, witness: a tab written at the origin of the 10 by 1 default buffer
stamps style only on the first cell; the second cell becomes a space with
its original default style retained. -/
theorem claim10_witness :
    ((write_char widthTabNone Color.Red Color.Green Attr.Bold ((0, 0), (9, 0))
      false cb101 0 0 '\t').gridOf.bind (fun g => g.get 0 0)) =
        some { Cell.mkDefault with ch := ' ', fg := Color.Red, bg := Color.Green, attrs := Attr.Bold } ∧
    ((write_char widthTabNone Color.Red Color.Green Attr.Bold ((0, 0), (9, 0))
      false cb101 0 0 '\t').gridOf.bind (fun g => g.get 1 0)).map Cell.ch = some ' ' ∧
    ((write_char widthTabNone Color.Red Color.Green Attr.Bold ((0, 0), (9, 0))
      false cb101 0 0 '\t').gridOf.bind (fun g => g.get 1 0)).map Cell.fg =
        some Cell.mkDefault.fg ∧
    ((write_char widthTabNone Color.Red Color.Green Attr.Bold ((0, 0), (9, 0))
      false cb101 0 0 '\t').gridOf.bind (fun g => g.get 1 0)).map Cell.bg =
        some Cell.mkDefault.bg ∧
    ((write_char widthTabNone Color.Red Color.Green Attr.Bold ((0, 0), (9, 0))
      false cb101 0 0 '\t').gridOf.bind (fun g => g.get 1 0)).map Cell.attrs =
        some Cell.mkDefault.attrs :=
  claim10_theorem widthTabNone Color.Red Color.Green Attr.Bold ((0, 0), (9, 0))
    false cb101 0 0 (by decide) (by decide) (by decide) (by decide)
    Cell.mkDefault Cell.mkDefault (by decide) (by decide)

/-- On a well-formed buffer, mutating an in-range cell succeeds and yields a
buffer with the same dimensions that is again well-formed. -/
theorem modifyCell_total (g : CellBuffer) (x y : Nat) (f : Cell → Cell) (hwf : g.wf)
    (hx : x < g.cols) (hy : y < g.rows) :
    ∃ g', g.modifyCell x y f = some g' ∧ g'.cols = g.cols ∧ g'.rows = g.rows ∧ g'.wf := by
  obtain ⟨c0, hc0, hm⟩ := modifyCell_success g x y f hwf hx hy
  obtain ⟨h1, h2, h3⟩ := modifyCell_preserve _ _ _ _ _ hm
  exact ⟨_, hm, h1, h2, h3 hwf⟩

/-- Outcomes of `inspect_bounds!` when the cursor column is at most one past
the area's right edge of an area whose right edge is inside the buffer:
either the function returns, the loop breaks, or the loop continues with a
cursor still bounded by the area's bottom-right corner. -/
theorem inspect_cases (g : CellBuffer) (area : Area) (x y : Nat) (lb : Bool)
    (_hbrx : get_x (bottom_right area) < g.cols)
    (hulx : get_x (upper_left area) ≤ get_x (bottom_right area))
    (hx : x ≤ get_x (bottom_right area) + 1) (hy : y ≤ get_y (bottom_right area)) :
    (∃ p, inspect_bounds g area x y lb = Step.ret p) ∨
    (∃ x' y', inspect_bounds g area x y lb = Step.brk x' y') ∨
    (∃ x' y', inspect_bounds g area x y lb = Step.cont x' y' ∧
      x' ≤ get_x (bottom_right area) ∧ y' ≤ get_y (bottom_right area)) := by
  simp only [get_x, get_y, upper_left, bottom_right] at hulx hx hy
  unfold inspect_bounds
  simp only [CellBuffer.size, get_x, get_y, upper_left, bottom_right]
  split_ifs with h1 h2 h3
  · exact Or.inl ⟨_, rfl⟩
  · exact Or.inr (Or.inl ⟨_, _, rfl⟩)
  · exact Or.inr (Or.inr ⟨_, _, rfl, by omega, by omega⟩)
  · exact Or.inr (Or.inr ⟨_, _, rfl, by omega, by omega⟩)

/-- The width-match tail of the write loop never panics and, when it
continues, keeps the cursor inside the area and the buffer well-formed,
provided the area's rectangle lies inside the buffer and the cursor is in
the area. -/
theorem widthStep_sound (w : Nat → Option Nat) (area : Area) (lb : Bool)
    (g : CellBuffer) (x y : Nat) (c : Char) (hwf : g.wf)
    (hbrx : get_x (bottom_right area) < g.cols)
    (hbry : get_y (bottom_right area) < g.rows)
    (hulx : get_x (upper_left area) ≤ get_x (bottom_right area))
    (hx : x ≤ get_x (bottom_right area)) (hy : y ≤ get_y (bottom_right area)) :
    (∃ g' p, widthStep w area lb g x y c = CharOut.stop g' p) ∨
    (∃ g' x' y', widthStep w area lb g x y c = CharOut.cont g' x' y' ∧
      g'.cols = g.cols ∧ g'.rows = g.rows ∧ g'.wf ∧
      x' ≤ get_x (bottom_right area) ∧ y' ≤ get_y (bottom_right area)) := by
  have hxlt : x < g.cols := by omega
  have hylt : y < g.rows := by omega
  have markStep : ∀ (g1 : CellBuffer) (a b : Nat), g1.wf → g1.cols = g.cols → g1.rows = g.rows →
      a ≤ get_x (bottom_right area) → b ≤ get_y (bottom_right area) →
      ∃ g2, g1.modifyCell a b (fun cell => { cell with empty := true }) = some g2 ∧
        g2.cols = g.cols ∧ g2.rows = g.rows ∧ g2.wf := by
    intro g1 a b hw1 hc1 hr1 ha hb
    obtain ⟨g2, hm, h1, h2, h3⟩ := modifyCell_total g1 a b
      (fun cell => { cell with empty := true }) hw1
      (by rw [hc1]; omega) (by rw [hr1]; omega)
    exact ⟨g2, hm, h1.trans hc1, h2.trans hr1, h3⟩
  cases hw : w c.toNat with
  | none =>
    obtain ⟨g1, hm, hc1, hr1, hw1⟩ := markStep g x y hwf rfl rfl hx hy
    rcases inspect_cases g1 area (x + 1) y lb (by rw [hc1]; exact hbrx) hulx (by omega) hy with
      ⟨p, hi⟩ | ⟨a, b, hi⟩ | ⟨a, b, hi, ha, hb⟩
    · exact Or.inl ⟨g1, p, by simp [widthStep, hw, hm, hi]⟩
    · exact Or.inl ⟨g1, (a, b), by simp [widthStep, hw, hm, hi]⟩
    · exact Or.inr ⟨g1, a, b, by simp [widthStep, hw, hm, hi], hc1, hr1, hw1, ha, hb⟩
  | some n =>
    match n with
    | 0 =>
      obtain ⟨g1, hm, hc1, hr1, hw1⟩ := markStep g x y hwf rfl rfl hx hy
      rcases inspect_cases g1 area (x + 1) y lb (by rw [hc1]; exact hbrx) hulx (by omega) hy with
        ⟨p, hi⟩ | ⟨a, b, hi⟩ | ⟨a, b, hi, ha, hb⟩
      · exact Or.inl ⟨g1, p, by simp [widthStep, hw, hm, hi]⟩
      · exact Or.inl ⟨g1, (a, b), by simp [widthStep, hw, hm, hi]⟩
      · exact Or.inr ⟨g1, a, b, by simp [widthStep, hw, hm, hi], hc1, hr1, hw1, ha, hb⟩
    | 1 =>
      rcases inspect_cases g area (x + 1) y lb hbrx hulx (by omega) hy with
        ⟨p, hi⟩ | ⟨a, b, hi⟩ | ⟨a, b, hi, ha, hb⟩
      · exact Or.inl ⟨g, p, by simp [widthStep, hw, hi]⟩
      · exact Or.inl ⟨g, (a, b), by simp [widthStep, hw, hi]⟩
      · exact Or.inr ⟨g, a, b, by simp [widthStep, hw, hi], rfl, rfl, hwf, ha, hb⟩
    | 2 =>
      rcases inspect_cases g area (x + 1) y lb hbrx hulx (by omega) hy with
        ⟨p, hi⟩ | ⟨a, b, hi⟩ | ⟨a, b, hi, ha, hb⟩
      · exact Or.inl ⟨g, p, by simp [widthStep, hw, hi]⟩
      · exact Or.inl ⟨g, (a, b), by simp [widthStep, hw, hi]⟩
      · obtain ⟨g1, hm, hc1, hr1, hw1⟩ := markStep g a b hwf rfl rfl ha hb
        rcases inspect_cases g1 area (a + 1) b lb (by rw [hc1]; exact hbrx) hulx (by omega) hb with
          ⟨p, hi2⟩ | ⟨a2, b2, hi2⟩ | ⟨a2, b2, hi2, ha2, hb2⟩
        · exact Or.inl ⟨g1, p, by simp [widthStep, hw, hi, hm, hi2]⟩
        · exact Or.inl ⟨g1, (a2, b2), by simp [widthStep, hw, hi, hm, hi2]⟩
        · exact Or.inr ⟨g1, a2, b2, by simp [widthStep, hw, hi, hm, hi2], hc1, hr1, hw1, ha2, hb2⟩
    | (m + 3) =>
      rcases inspect_cases g area (x + 1) y lb hbrx hulx (by omega) hy with
        ⟨p, hi⟩ | ⟨a, b, hi⟩ | ⟨a, b, hi, ha, hb⟩
      · exact Or.inl ⟨g, p, by simp [widthStep, hw, hi]⟩
      · exact Or.inl ⟨g, (a, b), by simp [widthStep, hw, hi]⟩
      · exact Or.inr ⟨g, a, b, by simp [widthStep, hw, hi], rfl, rfl, hwf, ha, hb⟩

/-- One iteration of the write loop never panics and, when it continues,
keeps the cursor inside the area and the buffer well-formed, provided the
area's rectangle lies inside the buffer and the cursor is in the area. -/
theorem write_char_sound (w : Nat → Option Nat) (fg bg : Color) (attrs : Attr)
    (area : Area) (lb : Bool) (g : CellBuffer) (x y : Nat) (c : Char) (hwf : g.wf)
    (hbrx : get_x (bottom_right area) < g.cols)
    (hbry : get_y (bottom_right area) < g.rows)
    (hulx : get_x (upper_left area) ≤ get_x (bottom_right area))
    (hx : x ≤ get_x (bottom_right area)) (hy : y ≤ get_y (bottom_right area)) :
    (∃ g' p, write_char w fg bg attrs area lb g x y c = CharOut.stop g' p) ∨
    (∃ g' x' y', write_char w fg bg attrs area lb g x y c = CharOut.cont g' x' y' ∧
      g'.cols = g.cols ∧ g'.rows = g.rows ∧ g'.wf ∧
      x' ≤ get_x (bottom_right area) ∧ y' ≤ get_y (bottom_right area)) := by
  have hxlt : x < g.cols := by omega
  have hylt : y < g.rows := by omega
  by_cases hcr : c = '\r'
  · exact Or.inr ⟨g, x, y, by simp [write_char, hcr], rfl, rfl, hwf, hx, hy⟩
  · obtain ⟨g1, hm0, hc1, hr1, hw1⟩ := modifyCell_total g x y
      (fun cell => ((cell.set_attrs attrs).set_fg fg).set_bg bg) hwf hxlt hylt
    by_cases htab : c = '\t'
    · subst htab
      obtain ⟨g2, hm1, hc2, hr2, hw2⟩ := modifyCell_total g1 x y
        (fun cell => cell.set_ch ' ') hw1 (by rw [hc1]; exact hxlt) (by rw [hr1]; exact hylt)
      rcases inspect_cases g2 area (x + 1) y lb (by rw [hc2, hc1]; exact hbrx) hulx
          (by omega) hy with
        ⟨p, hi⟩ | ⟨a, b, hi⟩ | ⟨a, b, hi, ha, hb⟩
      · exact Or.inl ⟨g2, p, by simp [write_char, hcr, hm0, hm1, hi]⟩
      · exact Or.inl ⟨g2, (a, b), by simp [write_char, hcr, hm0, hm1, hi]⟩
      · obtain ⟨g3, hm2, hc3, hr3, hw3⟩ := modifyCell_total g2 a b
          (fun cell => cell.set_ch ' ') hw2
          (by rw [hc2, hc1]; omega) (by rw [hr2, hr1]; omega)
        rcases widthStep_sound w area lb g3 a b '\t' hw3
            (by rw [hc3, hc2, hc1]; exact hbrx) (by rw [hr3, hr2, hr1]; exact hbry)
            hulx ha hb with
          ⟨g', p, hws⟩ | ⟨g', a', b', hws, hcc, hrr, hwf', ha', hb'⟩
        · exact Or.inl ⟨g', p, by simp [write_char, hcr, hm0, hm1, hi, hm2, hws]⟩
        · exact Or.inr ⟨g', a', b', by simp [write_char, hcr, hm0, hm1, hi, hm2, hws],
            hcc.trans (hc3.trans (hc2.trans hc1)), hrr.trans (hr3.trans (hr2.trans hr1)),
            hwf', ha', hb'⟩
    · obtain ⟨g2, hm1, hc2, hr2, hw2⟩ := modifyCell_total g1 x y
        (fun cell => cell.set_ch c) hw1 (by rw [hc1]; exact hxlt) (by rw [hr1]; exact hylt)
      rcases widthStep_sound w area lb g2 x y c hw2
          (by rw [hc2, hc1]; exact hbrx) (by rw [hr2, hr1]; exact hbry) hulx hx hy with
        ⟨g', p, hws⟩ | ⟨g', a', b', hws, hcc, hrr, hwf', ha', hb'⟩
      · exact Or.inl ⟨g', p, by simp [write_char, hcr, htab, hm0, hm1, hws]⟩
      · exact Or.inr ⟨g', a', b', by simp [write_char, hcr, htab, hm0, hm1, hws],
          hcc.trans (hc2.trans hc1), hrr.trans (hr2.trans hr1), hwf', ha', hb'⟩

/-- The write loop never panics while the cursor and the area stay inside
the buffer. -/
theorem write_loop_total (w : Nat → Option Nat) (fg bg : Color) (attrs : Attr)
    (area : Area) (lb : Bool) (cs : List Char) :
    ∀ (g : CellBuffer) (x y : Nat), g.wf →
      get_x (bottom_right area) < g.cols → get_y (bottom_right area) < g.rows →
      get_x (upper_left area) ≤ get_x (bottom_right area) →
      x ≤ get_x (bottom_right area) → y ≤ get_y (bottom_right area) →
      (write_loop w fg bg attrs area lb cs g x y).isSome := by
  induction cs with
  | nil =>
    intro g x y _ _ _ _ _ _
    simp [write_loop]
  | cons c cs ih =>
    intro g x y hwf hbrx hbry hulx hx hy
    rcases write_char_sound w fg bg attrs area lb g x y c hwf hbrx hbry hulx hx hy with
      ⟨g', p, he⟩ | ⟨g', x', y', he, hc, hr, hwf', hx', hy'⟩
    · simp [write_loop, he]
    · simp only [write_loop, he]
      exact ih g' x' y' hwf' (by rw [hc]; exact hbrx) (by rw [hr]; exact hbry) hulx hx' hy'

/-- C2 as amended: whenever the area's rectangle lies entirely within the
bounds of a well-formed buffer, `write_string_to_grid` returns normally for
every input string, colors, attributes, and line-break flag - every bound
violation inside that regime is absorbed into early-return truncation. (If
the area extends beyond the buffer, the function can instead panic through
the unchecked index: see the counterexample.) -/
theorem claim2_amended (w : Nat → Option Nat) (s : List Char) (grid : CellBuffer)
    (fg bg : Color) (attrs : Attr) (area : Area) (lb : Bool) (hwf : grid.wf)
    (hbx : get_x (bottom_right area) < grid.cols)
    (hby : get_y (bottom_right area) < grid.rows) :
    (write_string_to_grid w s grid fg bg attrs area lb).isSome := by
  have hbx' := hbx
  have hby' := hby
  simp only [get_x, get_y, bottom_right] at hbx' hby'
  simp only [write_string_to_grid]
  split_ifs with h1 h2
  · simp
  · simp
  · simp only [CellBuffer.size, get_x, get_y, upper_left, bottom_right] at h1 h2
    apply write_loop_total w fg bg attrs area lb s grid _ _ hwf hbx hby
    · simp only [get_x, upper_left, bottom_right]
      omega
    · simp only [get_x, get_y, upper_left, bottom_right]
      omega
    · simp only [get_y, upper_left, bottom_right]
      omega

/-- C2, witness: writing "hi" into the fully in-bounds area ((0,0),(4,4)) of
the 5 by 5 buffer returns normally. -/
theorem claim2_witness :
    (write_string_to_grid width1 "hi".toList cb55 Color.Red Color.Default
      Attr.Default ((0, 0), (4, 4)) true).isSome :=
  claim2_amended width1 "hi".toList cb55 Color.Red Color.Default Attr.Default
    ((0, 0), (4, 4)) true (by decide) (by decide) (by decide)

/-- C8, counterexample. The claim says the buffer built from a plain
multi-line string is sized to fit exactly. For the string "a\nb" the trimmed
lines plus their terminators need 4 cells, but the constructor allocates
`s.len() + lines.len() = 3 + 2 = 5` columns. -/
theorem claim8_counterexample :
    (CellBuffer.from_str ['a', '\n', 'b']).map CellBuffer.cols = some 5 ∧
    (((rustLines ['a', '\n', 'b']).map trim_end).map (fun l => l.length + 1)).sum = 4 ∧
    (5 : Nat) ≠ 4 := by
  decide

/-- Two cell buffers with the same dimensions and the same flat vector are
equal. -/
theorem cellBuffer_eq (a b : CellBuffer) (h1 : a.cols = b.cols) (h2 : a.rows = b.rows)
    (h3 : a.buf = b.buf) : a = b := by
  cases a; cases b; simp_all

/-- The validity predicate fails exactly when a corner comparison fails. -/
theorem is_valid_area_false_iff (a : Area) :
    is_valid_area a = false ↔
      get_y (upper_left a) > get_y (bottom_right a) ∨
      get_x (upper_left a) > get_x (bottom_right a) := by
  unfold is_valid_area
  split_ifs with h <;> simp [h]

/-- Membership in the inclusive Rust range `a..=b`. -/
theorem mem_rangeIncl (a b m : Nat) : m ∈ rangeIncl a b ↔ a ≤ m ∧ m ≤ b := by
  unfold rangeIncl
  rw [List.mem_range'_1]
  omega

/-- An `Option`-valued fold over a list succeeds and preserves an invariant
as soon as each step does so on elements of the list. -/
theorem foldlM_preserve (st : CellBuffer → Nat → Option CellBuffer) (P : CellBuffer → Prop)
    (xs : List Nat) :
    ∀ (g : CellBuffer), P g →
      (∀ (g' : CellBuffer) (x : Nat), P g' → x ∈ xs → ∃ g'', st g' x = some g'' ∧ P g'') →
      ∃ g', xs.foldlM st g = some g' ∧ P g' := by
  induction xs with
  | nil => exact fun g hg _ => ⟨g, rfl, hg⟩
  | cons x xs ih =>
    intro g hg hst
    obtain ⟨g1, h1, hP1⟩ := hst g x hg (List.mem_cons_self x xs)
    obtain ⟨g', h', hP'⟩ := ih g1 hP1
      (fun g' x' hP' hx' => hst g' x' hP' (List.mem_cons_of_mem x hx'))
    refine ⟨g', ?_, hP'⟩
    rw [List.foldlM_cons, h1]
    exact h'

/-- `change_colors_cell` succeeds at an in-range coordinate of a well-formed
buffer and preserves the dimensions and well-formedness. -/
theorem change_colors_cell_total (fg bg : Option Color) (g : CellBuffer) (x y : Nat)
    (hwf : g.wf) (hx : x < g.cols) (hy : y < g.rows) :
    ∃ g', change_colors_cell fg bg g x y = some g' ∧
      g'.cols = g.cols ∧ g'.rows = g.rows ∧ g'.wf := by
  rcases fg with _ | f
  · rcases bg with _ | b
    · exact ⟨g, rfl, rfl, rfl, hwf⟩
    · obtain ⟨c0, hc0, hm0⟩ := modifyCell_success g x y (fun cell => cell.set_bg b) hwf hx hy
      obtain ⟨h1, h2, h3⟩ := modifyCell_preserve _ _ _ _ _ hm0
      refine ⟨_, ?_, h1, h2, h3 hwf⟩
      simp [change_colors_cell, hm0]
  · obtain ⟨c0, hc0, hm0⟩ := modifyCell_success g x y (fun cell => cell.set_fg f) hwf hx hy
    obtain ⟨h1, h2, h3⟩ := modifyCell_preserve _ _ _ _ _ hm0
    rcases bg with _ | b
    · refine ⟨_, ?_, h1, h2, h3 hwf⟩
      simp [change_colors_cell, hm0]
    · obtain ⟨c1, hc1, hm1⟩ := modifyCell_success _ x y (fun cell => cell.set_bg b)
        (h3 hwf) (by rw [h1]; exact hx) (by rw [h2]; exact hy)
      obtain ⟨h1', h2', h3'⟩ := modifyCell_preserve _ _ _ _ _ hm1
      refine ⟨_, ?_, h1'.trans h1, h2'.trans h2, h3' (h3 hwf)⟩
      simp [change_colors_cell, hm0, hm1]

/-- Inner loop of `clear_area`: folding the cell reset over a list of
in-range columns of one in-range row succeeds, and the result holds the
default cell exactly at the touched flat positions. -/
theorem clear_inner_spec (C R y : Nat) (hy : y < R) (xs : List Nat) :
    ∀ (g : CellBuffer), g.cols = C → g.rows = R → g.wf → (∀ x ∈ xs, x < C) →
    ∃ g', xs.foldlM (fun g x => g.modifyCell x y (fun _ => Cell.mkDefault)) g = some g' ∧
      g'.cols = C ∧ g'.rows = R ∧ g'.wf ∧
      ∀ j : Nat, g'.buf[j]? =
        if ∃ x ∈ xs, j = C * y + x then some Cell.mkDefault else g.buf[j]? := by
  induction xs with
  | nil =>
    intro g hc hr hwf _
    refine ⟨g, rfl, hc, hr, hwf, fun j => ?_⟩
    rw [if_neg]
    simp
  | cons x xs ih =>
    intro g hc hr hwf hxs
    have hx : x < g.cols := by rw [hc]; exact hxs x (List.mem_cons_self x xs)
    have hy' : y < g.rows := by rw [hr]; exact hy
    obtain ⟨c0, hc0, hm0⟩ := modifyCell_success g x y (fun _ => Cell.mkDefault) hwf hx hy'
    have hilt : g.cols * y + x < g.buf.length := flat_index_lt g x y hwf hx hy'
    obtain ⟨g', hfold, hc', hr', hwf', hchar⟩ :=
      ih { g with buf := g.buf.set (g.cols * y + x) Cell.mkDefault }
        hc hr (wf_set g _ _ hwf) (fun x' hx' => hxs x' (List.mem_cons_of_mem x hx'))
    refine ⟨g', ?_, hc', hr', hwf', fun j => ?_⟩
    · rw [List.foldlM_cons, hm0]
      exact hfold
    · have hj1 := hchar j
      by_cases hmem : ∃ x' ∈ xs, j = C * y + x'
      · rw [if_pos hmem] at hj1
        rw [if_pos]
        · exact hj1
        · obtain ⟨x', hx', hj⟩ := hmem
          exact ⟨x', List.mem_cons_of_mem x hx', hj⟩
      · rw [if_neg hmem] at hj1
        by_cases hj : j = C * y + x
        · rw [if_pos ⟨x, List.mem_cons_self x xs, hj⟩]
          rw [hj1]
          have : g.cols * y + x = j := by rw [hc]; omega
          simp [List.getElem?_set, this, hilt]
          omega
        · rw [if_neg]
          · rw [hj1]
            have : g.cols * y + x ≠ j := by rw [hc]; omega
            simp [List.getElem?_set, this]
          · rintro ⟨x', hx', hj'⟩
            rcases List.mem_cons.mp hx' with h | h
            · exact hj (by rw [hj', h])
            · exact hmem ⟨x', h, hj'⟩

/-- Outer loop of `clear_area`: folding the row clears over a list of
in-range rows succeeds, and the result holds the default cell exactly at the
flat positions of the cleared rectangle. -/
theorem clear_outer_spec (C R : Nat) (xs ys : List Nat) (hxs : ∀ x ∈ xs, x < C)
    (hys : ∀ y ∈ ys, y < R) :
    ∀ (g : CellBuffer), g.cols = C → g.rows = R → g.wf →
    ∃ g', ys.foldlM (fun g y =>
        xs.foldlM (fun g x => g.modifyCell x y (fun _ => Cell.mkDefault)) g) g = some g' ∧
      g'.cols = C ∧ g'.rows = R ∧ g'.wf ∧
      ∀ j : Nat, g'.buf[j]? =
        if ∃ y ∈ ys, ∃ x ∈ xs, j = C * y + x then some Cell.mkDefault else g.buf[j]? := by
  induction ys with
  | nil =>
    intro g hc hr hwf
    refine ⟨g, rfl, hc, hr, hwf, fun j => ?_⟩
    rw [if_neg]
    simp
  | cons y ys ih =>
    intro g hc hr hwf
    have hy : y < R := hys y (List.mem_cons_self y ys)
    obtain ⟨g1, hrow, hc1, hr1, hwf1, hchar1⟩ := clear_inner_spec C R y hy xs g hc hr hwf hxs
    obtain ⟨g', hfold, hc', hr', hwf', hchar⟩ :=
      (fun g hcg hrg hwfg => ih (fun y' hy' => hys y' (List.mem_cons_of_mem y hy')) g hcg hrg hwfg)
        g1 hc1 hr1 hwf1
    refine ⟨g', ?_, hc', hr', hwf', fun j => ?_⟩
    · rw [List.foldlM_cons, hrow]
      exact hfold
    · have hj1 := hchar j
      have hj0 := hchar1 j
      by_cases hmem : ∃ y' ∈ ys, ∃ x ∈ xs, j = C * y' + x
      · rw [if_pos hmem] at hj1
        rw [if_pos]
        · exact hj1
        · obtain ⟨y', hy', hrest⟩ := hmem
          exact ⟨y', List.mem_cons_of_mem y hy', hrest⟩
      · rw [if_neg hmem] at hj1
        by_cases hrow0 : ∃ x ∈ xs, j = C * y + x
        · rw [if_pos hrow0] at hj0
          rw [if_pos ⟨y, List.mem_cons_self y ys, hrow0⟩]
          rw [hj1, hj0]
        · rw [if_neg hrow0] at hj0
          rw [if_neg]
          · rw [hj1, hj0]
          · rintro ⟨y', hy', hrest⟩
            rcases List.mem_cons.mp hy' with h | h
            · exact hrow0 (by rw [← h]; exact hrest)
            · exact hmem ⟨y', h, hrest⟩

/-- `clear_area` on a valid area lying entirely within a well-formed buffer
succeeds, preserves the dimensions, and holds the default cell exactly at
the flat positions of the rectangle, all other cells untouched. -/
theorem clear_area_spec (grid : CellBuffer) (area : Area) (hwf : grid.wf)
    (hv : is_valid_area area = true)
    (hbrx : get_x (bottom_right area) < grid.cols)
    (hbry : get_y (bottom_right area) < grid.rows) :
    ∃ g', clear_area grid area = some g' ∧
      g'.cols = grid.cols ∧ g'.rows = grid.rows ∧ g'.wf ∧
      ∀ j : Nat, g'.buf[j]? =
        if ∃ y ∈ rangeIncl (get_y (upper_left area)) (get_y (bottom_right area)),
            ∃ x ∈ rangeIncl (get_x (upper_left area)) (get_x (bottom_right area)),
            j = grid.cols * y + x
        then some Cell.mkDefault else grid.buf[j]? := by
  have hxs : ∀ x ∈ rangeIncl (get_x (upper_left area)) (get_x (bottom_right area)),
      x < grid.cols := fun x hx => by
    have := (mem_rangeIncl _ _ _).mp hx
    omega
  have hys : ∀ y ∈ rangeIncl (get_y (upper_left area)) (get_y (bottom_right area)),
      y < grid.rows := fun y hy => by
    have := (mem_rangeIncl _ _ _).mp hy
    omega
  obtain ⟨g', hfold, hc', hr', hwf', hchar⟩ :=
    clear_outer_spec grid.cols grid.rows _ _ hxs hys grid rfl rfl hwf
  refine ⟨g', ?_, hc', hr', hwf', hchar⟩
  unfold clear_area
  rw [if_neg (by rw [hv]; simp)]
  exact hfold

/-- The validity predicate holds exactly when the upper-left is
component-wise at most the bottom-right. -/
theorem is_valid_area_true_iff (a : Area) :
    is_valid_area a = true ↔
      get_y (upper_left a) ≤ get_y (bottom_right a) ∧
      get_x (upper_left a) ≤ get_x (bottom_right a) := by
  unfold is_valid_area
  split_ifs with h
  · simp only [Bool.false_eq_true, false_iff]
    omega
  · simp only [true_iff]
    omega

/-- C1 as amended: `change_colors` is a silent no-op when the area is
invalid or its upper-left lies outside the buffer bounds, and `clear_area`
is a silent no-op when the area is invalid; when the valid rectangle lies
entirely within the bounds both operations complete without panicking. But
a valid area that extends beyond the buffer bounds is not a no-op: it
reaches the unchecked index and panics (see the counterexample). -/
theorem claim1_amended (grid : CellBuffer) (area : Area) (fg bg : Option Color) :
    (is_valid_area area = false →
      change_colors grid area fg bg = some grid ∧ clear_area grid area = some grid) ∧
    (grid.rows ≤ get_y (upper_left area) ∨ grid.cols ≤ get_x (upper_left area) →
      change_colors grid area fg bg = some grid) ∧
    (grid.wf → is_valid_area area = true →
      get_x (bottom_right area) < grid.cols → get_y (bottom_right area) < grid.rows →
      (change_colors grid area fg bg).isSome ∧ (clear_area grid area).isSome) := by
  refine ⟨?_, ?_, ?_⟩
  · intro h
    have hd := (is_valid_area_false_iff area).mp h
    simp only [upper_left, bottom_right, get_x, get_y] at hd
    constructor
    · simp only [change_colors, CellBuffer.size, get_x, get_y, upper_left, bottom_right]
      rw [if_pos (by omega)]
    · simp [clear_area, h]
  · intro h
    simp only [upper_left, get_x, get_y] at h
    simp only [change_colors, CellBuffer.size, get_x, get_y, upper_left, bottom_right]
    rw [if_pos (by omega)]
  · intro hwf hv hbx hby
    have hvv := (is_valid_area_true_iff area).mp hv
    simp only [upper_left, bottom_right, get_x, get_y] at hvv hbx hby
    constructor
    · simp only [change_colors, CellBuffer.size, get_x, get_y, upper_left, bottom_right]
      rw [if_neg (by omega), if_neg (by simp [hv])]
      have hstep : ∀ (g1 : CellBuffer) (y : Nat),
          (g1.cols = grid.cols ∧ g1.rows = grid.rows ∧ g1.wf) →
          y ∈ rangeIncl area.1.2 area.2.2 →
          ∃ g2, (rangeIncl area.1.1 area.2.1).foldlM
              (fun g x => change_colors_cell fg bg g x y) g1 = some g2 ∧
            (g2.cols = grid.cols ∧ g2.rows = grid.rows ∧ g2.wf) := by
        intro g1 y hP hy
        have hy' : y < grid.rows := by
          have := (mem_rangeIncl _ _ _).mp hy
          omega
        exact foldlM_preserve (fun g x => change_colors_cell fg bg g x y)
          (fun g => g.cols = grid.cols ∧ g.rows = grid.rows ∧ g.wf)
          (rangeIncl area.1.1 area.2.1) g1 hP
          (fun g0 x hP0 hx => by
            have hx' : x < grid.cols := by
              have := (mem_rangeIncl _ _ _).mp hx
              omega
            obtain ⟨g2, hcc, hc2, hr2, hwf2⟩ := change_colors_cell_total fg bg g0 x y
              hP0.2.2 (by rw [hP0.1]; exact hx') (by rw [hP0.2.1]; exact hy')
            exact ⟨g2, hcc, hc2.trans hP0.1, hr2.trans hP0.2.1, hwf2⟩)
      obtain ⟨g', hf, _⟩ := foldlM_preserve
        (fun g y => (rangeIncl area.1.1 area.2.1).foldlM
          (fun g x => change_colors_cell fg bg g x y) g)
        (fun g => g.cols = grid.cols ∧ g.rows = grid.rows ∧ g.wf)
        (rangeIncl area.1.2 area.2.2) grid ⟨rfl, rfl, hwf⟩ hstep
      simp [hf]
    · obtain ⟨g', hcl, _⟩ := clear_area_spec grid area hwf hv hbx hby
      simp [hcl]

/-- C1, witness: on the 5 by 5 buffer with the in-bounds area ((0,0),(1,1)),
both operations complete without panicking. -/
theorem claim1_witness :
    (change_colors cb55 ((0, 0), (1, 1)) (some Color.Red) none).isSome ∧
    (clear_area cb55 ((0, 0), (1, 1))).isSome :=
  (claim1_amended cb55 ((0, 0), (1, 1)) (some Color.Red) none).2.2
    (by decide) (by decide) (by decide) (by decide)

/-- C7: `clear_area` is idempotent on every valid area lying entirely within
the buffer bounds - applying it twice yields exactly the state of applying
it once. -/
theorem claim7_theorem (grid : CellBuffer) (area : Area) (hwf : grid.wf)
    (hv : is_valid_area area = true)
    (hbrx : get_x (bottom_right area) < grid.cols)
    (hbry : get_y (bottom_right area) < grid.rows) :
    ∃ g', clear_area grid area = some g' ∧ clear_area g' area = some g' := by
  obtain ⟨g', h1, hc, hr, hwf', hchar⟩ := clear_area_spec grid area hwf hv hbrx hbry
  obtain ⟨g2, h2, hc2, hr2, hwf2, hchar2⟩ := clear_area_spec g' area hwf' hv
    (by rw [hc]; exact hbrx) (by rw [hr]; exact hbry)
  refine ⟨g', h1, ?_⟩
  rw [h2]
  congr 1
  refine cellBuffer_eq g2 g' hc2 hr2 (List.ext_getElem? fun j => ?_)
  have e1 := hchar j
  have e2 := hchar2 j
  simp only [hc] at e2
  by_cases hcond : ∃ y ∈ rangeIncl (get_y (upper_left area)) (get_y (bottom_right area)),
      ∃ x ∈ rangeIncl (get_x (upper_left area)) (get_x (bottom_right area)),
      j = grid.cols * y + x
  · rw [if_pos hcond] at e1 e2
    rw [e2, e1]
  · rw [if_neg hcond] at e2
    exact e2

/-- C7, witness: clearing the area ((0,0),(1,1)) of the 5 by 5 buffer twice
yields the state of clearing it once. -/
theorem claim7_witness :
    ∃ g', clear_area cb55 ((0, 0), (1, 1)) = some g' ∧
      clear_area g' ((0, 0), (1, 1)) = some g' :=
  claim7_theorem cb55 ((0, 0), (1, 1)) (by decide) (by decide) (by decide) (by decide)

/-- `write_char` depends on the width function only through its value at the
character being processed. -/
theorem write_char_congr (w1 w2 : Nat → Option Nat) (fg bg : Color) (attrs : Attr)
    (area : Area) (lb : Bool) (grid : CellBuffer) (x y : Nat) (c : Char)
    (h : w1 c.toNat = w2 c.toNat) :
    write_char w1 fg bg attrs area lb grid x y c =
      write_char w2 fg bg attrs area lb grid x y c := by
  unfold write_char widthStep
  rw [h]

/-- `write_loop` depends on the width function only through its values at the
characters of the input. -/
theorem write_loop_congr (w1 w2 : Nat → Option Nat) (fg bg : Color) (attrs : Attr)
    (area : Area) (lb : Bool) (s : List Char) (h : ∀ c ∈ s, w1 c.toNat = w2 c.toNat) :
    ∀ (grid : CellBuffer) (x y : Nat),
      write_loop w1 fg bg attrs area lb s grid x y =
        write_loop w2 fg bg attrs area lb s grid x y := by
  induction s with
  | nil => intro grid x y; rfl
  | cons c cs ih =>
    intro grid x y
    have hc := h c (List.mem_cons_self c cs)
    have hcs : ∀ d ∈ cs, w1 d.toNat = w2 d.toNat := fun d hd => h d (List.mem_cons_of_mem c hd)
    rw [write_loop, write_loop, write_char_congr w1 w2 fg bg attrs area lb grid x y c hc]
    cases write_char w2 fg bg attrs area lb grid x y c with
    | panic => rfl
    | stop g p => rfl
    | cont g x' y' => exact ih hcs g x' y'

/-- `write_string_to_grid` depends on the width function only through its
values at the characters of the input. -/
theorem write_string_to_grid_congr (w1 w2 : Nat → Option Nat) (s : List Char)
    (grid : CellBuffer) (fg bg : Color) (attrs : Attr) (area : Area) (lb : Bool)
    (h : ∀ c ∈ s, w1 c.toNat = w2 c.toNat) :
    write_string_to_grid w1 s grid fg bg attrs area lb =
      write_string_to_grid w2 s grid fg bg attrs area lb := by
  simp only [write_string_to_grid]
  split_ifs with h1 h2
  · rfl
  · rfl
  · exact write_loop_congr w1 w2 fg bg attrs area lb s h grid _ _

/-- C4 as amended: writing "abcdef" (each character of display width 1) into
the 3 by 2 area ((0,0),(2,1)) of a sufficiently large buffer with line
breaks allowed fills row 0 columns 0-2 with 'a','b','c' and row 1 columns
0-2 with 'd','e','f', and returns the cursor (0,1) - the wrap after 'f'
resets the column to the area's left edge, bumps the row past the bottom
edge, and the function returns the wrapped column with the previous row
(not (3,1) as claimed). -/
theorem claim4_amended (w : Nat → Option Nat)
    (hw : ∀ c ∈ "abcdef".toList, w c.toNat = some 1) :
    (write_string_to_grid w "abcdef".toList cb55 Color.Red Color.Default
      Attr.Default ((0, 0), (2, 1)) true).map Prod.snd = some (0, 1) ∧
    (((write_string_to_grid w "abcdef".toList cb55 Color.Red Color.Default
      Attr.Default ((0, 0), (2, 1)) true).map Prod.fst).bind
        (fun g => (g.get 0 0).map Cell.ch)) = some 'a' ∧
    (((write_string_to_grid w "abcdef".toList cb55 Color.Red Color.Default
      Attr.Default ((0, 0), (2, 1)) true).map Prod.fst).bind
        (fun g => (g.get 1 0).map Cell.ch)) = some 'b' ∧
    (((write_string_to_grid w "abcdef".toList cb55 Color.Red Color.Default
      Attr.Default ((0, 0), (2, 1)) true).map Prod.fst).bind
        (fun g => (g.get 2 0).map Cell.ch)) = some 'c' ∧
    (((write_string_to_grid w "abcdef".toList cb55 Color.Red Color.Default
      Attr.Default ((0, 0), (2, 1)) true).map Prod.fst).bind
        (fun g => (g.get 0 1).map Cell.ch)) = some 'd' ∧
    (((write_string_to_grid w "abcdef".toList cb55 Color.Red Color.Default
      Attr.Default ((0, 0), (2, 1)) true).map Prod.fst).bind
        (fun g => (g.get 1 1).map Cell.ch)) = some 'e' ∧
    (((write_string_to_grid w "abcdef".toList cb55 Color.Red Color.Default
      Attr.Default ((0, 0), (2, 1)) true).map Prod.fst).bind
        (fun g => (g.get 2 1).map Cell.ch)) = some 'f' := by
  have hcongr := write_string_to_grid_congr w width1 "abcdef".toList cb55
    Color.Red Color.Default Attr.Default ((0, 0), (2, 1)) true
    (fun c hc => (hw c hc).trans rfl)
  rw [hcongr]
  decide

/-- C4, witness: the constant width-1 function satisfies the hypothesis. -/
theorem claim4_witness :
    (write_string_to_grid width1 "abcdef".toList cb55 Color.Red Color.Default
      Attr.Default ((0, 0), (2, 1)) true).map Prod.snd = some (0, 1) :=
  (claim4_amended width1 (fun _ _ => rfl)).1

/-- Length of a row-major flattening of `R` rows of `C` entries each. -/
theorem length_rowMajor {α : Type} (R C : Nat) (f : Nat → Nat → α) :
    (((List.range R).map (fun y => (List.range C).map (fun x => f x y))).flatten).length =
      R * C := by
  induction R with
  | zero => simp
  | succ r ih =>
    rw [List.range_succ, List.map_append, List.flatten_append]
    simp [ih, Nat.succ_mul]

/-- Indexing a row-major flattening of `R` rows of `C` entries at the flat
position of an in-range coordinate yields that coordinate's entry. -/
theorem getElem_rowMajor {α : Type} (R C : Nat) (f : Nat → Nat → α) (x y : Nat)
    (hx : x < C) (hy : y < R) :
    (((List.range R).map (fun y => (List.range C).map (fun x => f x y))).flatten)[C * y + x]? =
      some (f x y) := by
  induction R with
  | zero => omega
  | succ r ih =>
    rw [List.range_succ, List.map_append, List.flatten_append, List.getElem?_append]
    by_cases hyr : y < r
    · rw [if_pos]
      · exact ih hyr
      · rw [length_rowMajor r C f]
        calc C * y + x < C * y + C := by omega
          _ = C * (y + 1) := by ring
          _ ≤ C * r := Nat.mul_le_mul_left _ (by omega)
          _ = r * C := Nat.mul_comm _ _
    · have hyeq : y = r := by omega
      rw [hyeq]
      rw [if_neg]
      · rw [length_rowMajor r C f]
        have he : C * r + x - r * C = x := by
          have h2 : C * r = r * C := Nat.mul_comm _ _
          omega
        rw [he]
        simp [List.getElem?_map, List.getElem?_range, hx]
      · rw [length_rowMajor r C f]
        have h2 : C * r = r * C := Nat.mul_comm _ _
        omega

/-- The checked lookup succeeds at every in-range coordinate of a
well-formed buffer. -/
theorem get_is_some (b : CellBuffer) (x y : Nat) (hwf : b.wf)
    (hx : x < b.cols) (hy : y < b.rows) : ∃ c, b.get x y = some c := by
  have hlt := flat_index_lt b x y hwf hx hy
  simp only [CellBuffer.get, pos_to_index_in_range b x y hx hy]
  cases hb : b.buf[b.cols * y + x]? with
  | none =>
    have := List.getElem?_eq_none_iff.mp hb
    omega
  | some c => exact ⟨c, rfl⟩

/-- On the rebuild path, the checked lookup of the resized buffer at any
coordinate of the new rectangle yields the old cell when it existed and the
blank otherwise. -/
theorem resize_get (b : CellBuffer) (nc nr : Nat) (blank : Cell)
    (hcond : ¬(b.buf.length = nc * nr)) (x y : Nat) (hx : x < nc) (hy : y < nr) :
    (b.resize nc nr blank).get x y = some ((b.get x y).getD blank) := by
  unfold CellBuffer.resize
  rw [if_neg hcond]
  simp only [CellBuffer.get, CellBuffer.pos_to_index, hx, hy, and_self, if_true]
  exact getElem_rowMajor nr nc (fun x y => (b.get x y).getD blank) x y hx hy

/-- C3 as amended: whenever the requested total cell count differs from the
current one (otherwise `resize` is an immediate no-op, see the
counterexample and the equal-count claim), `resize(nc, nr, blank)` produces
a buffer with dimensions `nc` by `nr` whose cell vector has length
`nc * nr`; every coordinate inside both the old and new rectangles keeps its
old cell, and every other coordinate of the new rectangle holds `blank`. -/
theorem claim3_amended (b : CellBuffer) (nc nr : Nat) (blank : Cell) (hwf : b.wf)
    (hne : b.cols * b.rows ≠ nc * nr) :
    (b.resize nc nr blank).cols = nc ∧ (b.resize nc nr blank).rows = nr ∧
    (b.resize nc nr blank).buf.length = nc * nr ∧
    (∀ x y : Nat, x < b.cols → x < nc → y < b.rows → y < nr →
      (b.resize nc nr blank).get x y = b.get x y) ∧
    (∀ x y : Nat, x < nc → y < nr → ¬(x < b.cols ∧ y < b.rows) →
      (b.resize nc nr blank).get x y = some blank) := by
  have hcond : ¬(b.buf.length = nc * nr) := by
    rw [CellBuffer.wf] at hwf
    omega
  refine ⟨?_, ?_, ?_, ?_, ?_⟩
  · simp [CellBuffer.resize, hcond]
  · simp [CellBuffer.resize, hcond]
  · have hlen := length_rowMajor nr nc (fun x y => (b.get x y).getD blank)
    simp [CellBuffer.resize, hcond, hlen, Nat.mul_comm]
  · intro x y hx hxnc hy hynr
    obtain ⟨c, hc⟩ := get_is_some b x y hwf hx hy
    rw [resize_get b nc nr blank hcond x y hxnc hynr, hc]
    simp
  · intro x y hxnc hynr hnot
    have hold : b.get x y = none := by
      simp only [CellBuffer.get, CellBuffer.pos_to_index]
      rw [if_neg hnot]
    rw [resize_get b nc nr blank hcond x y hxnc hynr, hold]
    simp

/-- C3, witness: growing the 2 by 3 buffer `b23` to 3 by 3 keeps the
overlapping cell (0,0) and fills the fresh coordinate (2,0) with the blank. -/
theorem claim3_witness :
    (b23.resize 3 3 Cell.mkDefault).buf.length = 3 * 3 ∧
    (b23.resize 3 3 Cell.mkDefault).get 0 0 = b23.get 0 0 ∧
    (b23.resize 3 3 Cell.mkDefault).get 2 0 = some Cell.mkDefault :=
  ⟨(claim3_amended b23 3 3 Cell.mkDefault (by decide) (by decide)).2.2.1,
    (claim3_amended b23 3 3 Cell.mkDefault (by decide) (by decide)).2.2.2.1 0 0
      (by decide) (by decide) (by decide) (by decide),
    (claim3_amended b23 3 3 Cell.mkDefault (by decide) (by decide)).2.2.2.2 2 0
      (by decide) (by decide) (by decide)⟩

/-- Stripping a trailing carriage return does not lengthen a line. -/
theorem stripCR_length_le (l : List Char) : (stripCR l).length ≤ l.length := by
  unfold stripCR
  split_ifs with h
  · rw [List.length_dropLast]
    omega
  · exact le_refl _

/-- Trimming trailing whitespace does not lengthen a line. -/
theorem trim_end_length_le (l : List Char) : (trim_end l).length ≤ l.length := by
  unfold trim_end
  rw [List.length_reverse]
  calc (l.reverse.dropWhile isRustWhitespace).length
      ≤ l.reverse.length := (List.dropWhile_sublist _).length_le
    _ = l.length := List.length_reverse _

/-- The lines of a string carry at most as many characters as the string. -/
theorem rustLinesAux_sum_le (s : List Char) :
    ∀ acc : List Char, ((rustLinesAux acc s).map List.length).sum ≤ acc.length + s.length := by
  induction s with
  | nil =>
    intro acc
    unfold rustLinesAux
    split_ifs with h
    · simp
    · simp
  | cons c rest ih =>
    intro acc
    unfold rustLinesAux
    split_ifs with h
    · have h1 := stripCR_length_le acc.reverse
      have h2 := ih []
      simp only [List.map_cons, List.sum_cons, List.length_reverse, List.length_cons] at h1 h2 ⊢
      simp only [List.length_nil] at h2
      omega
    · have h2 := ih (c :: acc)
      simp only [List.length_cons] at h2 ⊢
      omega

/-- The lines of a string carry at most as many characters as the string. -/
theorem rustLines_sum_le (s : List Char) :
    ((rustLines s).map List.length).sum ≤ s.length := by
  have := rustLinesAux_sum_le s []
  simpa [rustLines] using this

/-- A string's character count is at most its UTF-8 byte length. -/
theorem length_le_utf8Len (s : List Char) : s.length ≤ utf8Len s := by
  induction s with
  | nil => simp [utf8Len]
  | cons c rest ih =>
    have := Char.utf8Size_pos c
    simp only [utf8Len, List.map_cons, List.sum_cons, List.length_cons] at ih ⊢
    omega

/-- Summing the successor of a function over a list adds the list's length. -/
theorem sum_map_succ (ls : List (List Char)) :
    (ls.map (fun l => l.length + 1)).sum = (ls.map List.length).sum + ls.length := by
  induction ls with
  | nil => simp
  | cons l ls ih =>
    simp only [List.map_cons, List.sum_cons, List.length_cons, ih]
    omega

/-- The inner loop of the string constructor, on a buffer that is a written
prefix followed by blanks: it writes the line's characters over the first
blanks, leaving the rest blank. -/
theorem writeLineChars_spec (N : Nat) (cs : List Char) :
    ∀ (pre : List Cell) (m : Nat), cs.length ≤ m → pre.length + m = N →
    writeLineChars cs pre.length
        { cols := N, rows := 1, buf := pre ++ List.replicate m Cell.mkDefault } =
      some { cols := N, rows := 1,
             buf := (pre ++ cs.map (fun c => Cell.mkDefault.set_ch c)) ++
               List.replicate (m - cs.length) Cell.mkDefault } := by
  induction cs with
  | nil =>
    intro pre m _ _
    simp [writeLineChars]
  | cons c cs ih =>
    intro pre m hlen hN
    have hm : 1 ≤ m := by
      simp only [List.length_cons] at hlen
      omega
    obtain ⟨m', rfl⟩ : ∃ m', m = m' + 1 := ⟨m - 1, by omega⟩
    have hidx : pre.length < N := by omega
    have hbuf : (pre ++ List.replicate (m' + 1) Cell.mkDefault)[pre.length]? =
        some Cell.mkDefault := by
      rw [List.getElem?_append_right (le_refl _)]
      simp [List.getElem?_replicate]
    have hset : (pre ++ List.replicate (m' + 1) Cell.mkDefault).set pre.length
        (Cell.mkDefault.set_ch c) =
        (pre ++ [Cell.mkDefault.set_ch c]) ++ List.replicate m' Cell.mkDefault := by
      rw [List.set_append, if_neg (by omega)]
      simp [List.replicate_succ, List.set_cons_zero]
    have hmod : CellBuffer.modifyCell
        { cols := N, rows := 1, buf := pre ++ List.replicate (m' + 1) Cell.mkDefault }
        pre.length 0 (fun cell => cell.set_ch c) =
        some { cols := N, rows := 1,
               buf := (pre ++ [Cell.mkDefault.set_ch c]) ++ List.replicate m' Cell.mkDefault } := by
      simp only [CellBuffer.modifyCell, CellBuffer.pos_to_index]
      rw [if_pos ⟨hidx, Nat.zero_lt_one⟩]
      simp only [Nat.mul_zero, Nat.zero_add, hbuf, hset]
    have hstep := ih (pre ++ [Cell.mkDefault.set_ch c]) m'
      (by simp only [List.length_cons] at hlen; omega)
      (by simp only [List.length_append, List.length_cons, List.length_nil]; omega)
    rw [show (pre ++ [Cell.mkDefault.set_ch c]).length = pre.length + 1 from by simp] at hstep
    simp only [writeLineChars, hmod]
    rw [hstep]
    simp [List.append_assoc]

/-- The outer loop of the string constructor, on a buffer that is a written
prefix followed by blanks: it packs each line followed by a line-feed cell,
leaving the rest blank. -/
theorem from_str_loop_spec (N : Nat) (ls : List (List Char)) :
    ∀ (pre : List Cell) (m : Nat),
      (ls.map (fun l => l.length + 1)).sum ≤ m → pre.length + m = N →
      from_str_loop ls pre.length
          { cols := N, rows := 1, buf := pre ++ List.replicate m Cell.mkDefault } =
        some { cols := N, rows := 1,
               buf := (pre ++ (ls.map (fun l =>
                 l.map (fun c => Cell.mkDefault.set_ch c) ++ [Cell.mkDefault.set_ch '\n'])).flatten) ++
                   List.replicate (m - (ls.map (fun l => l.length + 1)).sum) Cell.mkDefault } := by
  induction ls with
  | nil =>
    intro pre m _ _
    simp [from_str_loop]
  | cons l ls ih =>
    intro pre m hsum hN
    have hl : l.length + 1 ≤ m := by
      simp only [List.map_cons, List.sum_cons] at hsum
      omega
    have hpre1 : (pre ++ l.map (fun c => Cell.mkDefault.set_ch c)).length =
        pre.length + l.length := by
      simp
    obtain ⟨m2, hm2⟩ : ∃ m2, m - l.length = m2 + 1 := ⟨m - l.length - 1, by omega⟩
    have hidx : pre.length + l.length < N := by omega
    have hbuf : ((pre ++ l.map (fun c => Cell.mkDefault.set_ch c)) ++
        List.replicate (m - l.length) Cell.mkDefault)[pre.length + l.length]? =
        some Cell.mkDefault := by
      rw [List.getElem?_append_right (by rw [hpre1])]
      rw [hpre1, hm2]
      simp [List.getElem?_replicate]
    have hset : ((pre ++ l.map (fun c => Cell.mkDefault.set_ch c)) ++
          List.replicate (m - l.length) Cell.mkDefault).set (pre.length + l.length)
          (Cell.mkDefault.set_ch '\n') =
        ((pre ++ l.map (fun c => Cell.mkDefault.set_ch c)) ++ [Cell.mkDefault.set_ch '\n']) ++
          List.replicate m2 Cell.mkDefault := by
      rw [List.set_append, if_neg (by rw [hpre1]; omega)]
      rw [hpre1, hm2]
      simp [List.replicate_succ, List.set_cons_zero, List.append_assoc]
    have hmod : CellBuffer.modifyCell
        { cols := N, rows := 1,
          buf := (pre ++ l.map (fun c => Cell.mkDefault.set_ch c)) ++
            List.replicate (m - l.length) Cell.mkDefault }
        (pre.length + l.length) 0 (fun cell => cell.set_ch '\n') =
        some { cols := N, rows := 1,
               buf := ((pre ++ l.map (fun c => Cell.mkDefault.set_ch c)) ++
                 [Cell.mkDefault.set_ch '\n']) ++ List.replicate m2 Cell.mkDefault } := by
      simp only [CellBuffer.modifyCell, CellBuffer.pos_to_index]
      rw [if_pos ⟨hidx, Nat.zero_lt_one⟩]
      simp only [Nat.mul_zero, Nat.zero_add, hbuf, hset]
    have hstep := ih ((pre ++ l.map (fun c => Cell.mkDefault.set_ch c)) ++
        [Cell.mkDefault.set_ch '\n']) m2
      (by
        simp only [List.map_cons, List.sum_cons] at hsum
        omega)
      (by
        simp only [List.length_append, List.length_map, List.length_cons, List.length_nil]
        omega)
    rw [show ((pre ++ l.map (fun c => Cell.mkDefault.set_ch c)) ++
        [Cell.mkDefault.set_ch '\n']).length = pre.length + l.length + 1
      from by
        simp only [List.length_append, List.length_map, List.length_cons, List.length_nil]
        try omega] at hstep
    simp only [from_str_loop, writeLineChars_spec N l pre m (by omega) hN, hmod]
    rw [hstep]
    have hpad : m2 - (ls.map (fun l => l.length + 1)).sum =
        m - ((l :: ls).map (fun l => l.length + 1)).sum := by
      simp only [List.map_cons, List.sum_cons]
      omega
    rw [hpad]
    simp [List.append_assoc]

/-- C8 as amended: the buffer built from a plain multi-line string has a
single row; its cells are exactly the trailing-whitespace-trimmed lines each
followed by a line-feed terminator cell, packed left to right, with every
remaining cell a blank; but its column count is `s.len() + lines.len()` -
the UTF-8 byte length of the whole source string plus the number of lines -
an over-allocation rather than an exact fit (see the counterexample). -/
theorem claim8_amended (s : List Char) :
    ∃ b : CellBuffer, CellBuffer.from_str s = some b ∧
      b.rows = 1 ∧
      b.cols = utf8Len s + ((rustLines s).map trim_end).length ∧
      b.buf.map Cell.ch =
        (((rustLines s).map trim_end).map (fun l => l ++ ['\n'])).flatten ++
          List.replicate
            ((utf8Len s + ((rustLines s).map trim_end).length) -
              (((rustLines s).map trim_end).map (fun l => l.length + 1)).sum) ' ' := by
  have hsum : ((((rustLines s).map trim_end).map (fun l => l.length + 1)).sum) ≤
      utf8Len s + ((rustLines s).map trim_end).length := by
    rw [sum_map_succ]
    have h1 : ((((rustLines s).map trim_end)).map List.length).sum ≤
        ((rustLines s).map List.length).sum := by
      rw [List.map_map]
      exact List.sum_le_sum (fun l _ => trim_end_length_le l)
    have h2 := rustLines_sum_le s
    have h3 := length_le_utf8Len s
    have h4 : ((rustLines s).map trim_end).length = (rustLines s).length := by
      simp
    omega
  have hnew : CellBuffer.new (utf8Len s + ((rustLines s).map trim_end).length) 1 Cell.mkDefault =
      { cols := utf8Len s + ((rustLines s).map trim_end).length, rows := 1,
        buf := ([] : List Cell) ++
          List.replicate (utf8Len s + ((rustLines s).map trim_end).length) Cell.mkDefault
      } := by
    simp [CellBuffer.new]
  have hloop := from_str_loop_spec (utf8Len s + ((rustLines s).map trim_end).length)
    ((rustLines s).map trim_end) ([] : List Cell)
    (utf8Len s + ((rustLines s).map trim_end).length) hsum (by simp)
  have hfs : CellBuffer.from_str s =
      some { cols := utf8Len s + ((rustLines s).map trim_end).length, rows := 1,
             buf := (([] : List Cell) ++ (((rustLines s).map trim_end).map (fun l =>
                 l.map (fun c => Cell.mkDefault.set_ch c) ++
                   [Cell.mkDefault.set_ch '\n'])).flatten) ++
               List.replicate ((utf8Len s + ((rustLines s).map trim_end).length) -
                 (((rustLines s).map trim_end).map (fun l => l.length + 1)).sum)
                 Cell.mkDefault } := by
    simp only [CellBuffer.from_str]
    rw [hnew]
    exact hloop
  refine ⟨_, hfs, rfl, rfl, ?_⟩
  simp only [List.nil_append, List.map_append, List.map_flatten, List.map_map,
    List.map_replicate]
  congr 1
  · have hfun : (List.map Cell.ch ∘ (fun l =>
        List.map (fun c => Cell.mkDefault.set_ch c) l ++ [Cell.mkDefault.set_ch '\n']) ∘
          trim_end) = ((fun l => l ++ ['\n']) ∘ trim_end) := by
      funext l
      simp [Function.comp_def, Cell.set_ch, Cell.mkDefault, Cell.new]
    rw [hfun]

/-- C9: `resize` returns immediately, leaving the buffer entirely unchanged
(stored `cols`, `rows`, and every cell), whenever the requested total cell
count equals the current one - even when the requested column count differs
from the stored one. -/
theorem claim9_theorem (b : CellBuffer) (nc nr : Nat) (blank : Cell)
    (hwf : b.wf) (h : nc * nr = b.cols * b.rows) :
    b.resize nc nr blank = b := by
  unfold CellBuffer.resize
  rw [if_pos]
  rw [CellBuffer.wf] at hwf
  omega

/-- C9, witness: resizing the 2 by 3 buffer `b23` to 3 by 2 (same total of 6
cells) leaves it untouched. -/
theorem claim9_witness : b23.resize 3 2 Cell.mkDefault = b23 :=
  claim9_theorem b23 3 2 Cell.mkDefault (by decide) (by decide)

end Bb
